import Mathlib

/-!
Shallow embedding of `src/screenshot-manager.py` (ScreenshotManager).

Two subsystems are embedded faithfully from the source:

* `ScreenshotEditor` — the annotation command stack (`items` / `redo_items`,
  the `changed` flag, and the mouse-event drawing state machine).
* `ScreenshotList` / `ScreenshotListItem` — the screenshot collection, its
  timestamp-based ordering (`__lt__` plus `QListWidget.sortItems`, a stable
  sort), `add_file` / `remove_file`, the list-file reconciliation
  `update_from_filelist`, and the bulk `load_screenshots`.

File-system interaction is modelled by an explicit snapshot `FS`; Python
exceptions escaping a function (`os.path.getmtime` on a vanished path) are
modelled with `Except`, the `error` payload being the state at the moment the
exception escapes.
-/

namespace ScreenshotManager

/-- A 2-D point as delivered by `mapToScene`.  The geometry used by the code is
pure coordinate arithmetic, modelled over `Int`. -/
structure Point where
  x : Int
  y : Int
deriving DecidableEq, Repr

/-- The rectangle stored by `QGraphicsEllipseItem` / `QGraphicsRectItem` via
`setRect`: an origin plus a *signed* width and height. -/
structure Rect where
  x : Int
  y : Int
  w : Int
  h : Int
deriving DecidableEq, Repr

/-- The `DrawingStyle` enum of the source. -/
inductive DrawingStyle
  | noStyle
  | ellipse
  | pen
  | rect
deriving DecidableEq, Repr

/-- A graphics item held on the editor's undo stack: a `QGraphicsItemGroup` of
line segments (pen), or an ellipse/rect item holding its `setRect` rectangle. -/
inductive AnnotationItem
  | group (lines : List (Point × Point))
  | ellipseItem (r : Rect)
  | rectItem (r : Rect)
deriving DecidableEq, Repr

/-- The state of `ScreenshotEditor` relevant to the annotation stack.  The
`scene` mirror of `items` and the pixmap are presentation-only and omitted. -/
structure ScreenshotEditor where
  changed : Bool
  items : List AnnotationItem
  redo_items : List AnnotationItem
  mouse_pressed : Bool
  previous_point : Option Point
  drawing_style : DrawingStyle
deriving DecidableEq, Repr

/-- `ScreenshotEditor.__init__`: no pending changes, empty stacks, pen style. -/
def initEditor : ScreenshotEditor :=
  { changed := false
    items := []
    redo_items := []
    mouse_pressed := false
    previous_point := Option.none
    drawing_style := DrawingStyle.pen }

/-- `ScreenshotEditor.add_item`: append to `items` and clear `redo_items`.
(The `items_changed` signal has no state effect; note `changed` is untouched.) -/
def add_item (s : ScreenshotEditor) (it : AnnotationItem) : ScreenshotEditor :=
  { s with items := s.items ++ [it], redo_items := [] }

/-- `ScreenshotEditor.mousePressEvent`: when the cursor is over the photo,
record the press and the anchor point, and start a new item per the style. -/
def mousePressEvent (s : ScreenshotEditor) (pos : Point) (underMouse : Bool) :
    ScreenshotEditor :=
  if underMouse then
    let s1 := { s with mouse_pressed := true, previous_point := some pos }
    match s1.drawing_style with
    | DrawingStyle.pen => add_item s1 (AnnotationItem.group [])
    | DrawingStyle.ellipse =>
        add_item s1 (AnnotationItem.ellipseItem ⟨pos.x, pos.y, 0, 0⟩)
    | DrawingStyle.rect =>
        add_item s1 (AnnotationItem.rectItem ⟨pos.x, pos.y, 0, 0⟩)
    | DrawingStyle.noStyle => s1
  else s

/-- `ScreenshotEditor.mouseReleaseEvent`. -/
def mouseReleaseEvent (s : ScreenshotEditor) : ScreenshotEditor :=
  { s with mouse_pressed := false }

/-- Replace the last element of a list (`self.items[-1]` mutation). -/
def setLast {α : Type} (l : List α) (a : α) : List α :=
  l.dropLast ++ [a]

/-- `item.setRect(...)` — defined for ellipse and rect items only; the source
relies on the last item being of the right kind (see its inline comments). -/
def setItemRect (it : AnnotationItem) (r : Rect) : Option AnnotationItem :=
  match it with
  | AnnotationItem.ellipseItem _ => some (AnnotationItem.ellipseItem r)
  | AnnotationItem.rectItem _ => some (AnnotationItem.rectItem r)
  | AnnotationItem.group _ => Option.none

/-- The rectangle held by an ellipse/rect item. -/
def shapeRect (it : AnnotationItem) : Option Rect :=
  match it with
  | AnnotationItem.ellipseItem r => some r
  | AnnotationItem.rectItem r => some r
  | AnnotationItem.group _ => Option.none

/-- `ScreenshotEditor.mouseMoveEvent`: while pressed over the photo, pen style
appends a segment from `previous_point` to the current point (and advances
`previous_point`); ellipse/rect styles call `setRect(prev.x, prev.y,
cur.x - prev.x, cur.y - prev.y)` on the last item, leaving `previous_point`
(the anchor) unchanged.  Both drawing branches set `changed`. -/
def mouseMoveEvent (s : ScreenshotEditor) (pos : Point) (underMouse : Bool) :
    ScreenshotEditor :=
  if s.mouse_pressed && underMouse then
    match s.previous_point with
    | Option.none => s
    | some prev =>
      if s.drawing_style = DrawingStyle.pen then
        match s.items.getLast? with
        | some (AnnotationItem.group lines) =>
            { s with
              items := setLast s.items (AnnotationItem.group (lines ++ [(prev, pos)]))
              previous_point := some pos
              changed := true }
        | _ => s
      else if s.drawing_style = DrawingStyle.ellipse ∨ s.drawing_style = DrawingStyle.rect then
        match s.items.getLast? with
        | some it =>
          match setItemRect it ⟨prev.x, prev.y, pos.x - prev.x, pos.y - prev.y⟩ with
          | some it2 => { s with items := setLast s.items it2, changed := true }
          | Option.none => s
        | Option.none => s
      else s
  else s

/-- `ScreenshotEditor.save`: renders to disk (outside the model) and clears
`changed`. -/
def save (s : ScreenshotEditor) : ScreenshotEditor :=
  { s with changed := false }

/-- `ScreenshotEditor.undo`: pop the last item onto `redo_items` (no-op when
`items` is empty). -/
def undo (s : ScreenshotEditor) : ScreenshotEditor :=
  match s.items.getLast? with
  | Option.none => s
  | some it =>
      { s with items := s.items.dropLast, redo_items := s.redo_items ++ [it] }

/-- `ScreenshotEditor.redo`: pop the last retained item back onto `items`
(no-op when `redo_items` is empty). -/
def redo (s : ScreenshotEditor) : ScreenshotEditor :=
  match s.redo_items.getLast? with
  | Option.none => s
  | some it =>
      { s with redo_items := s.redo_items.dropLast, items := s.items ++ [it] }

/-- File metadata as the OS and Qt expose it: the modification time, and the
decoded image size when the file is a decodable image (`QImage` of anything
else is a null image whose size is 0×0). -/
structure FileInfo where
  mtime : Int
  decoded : Option (Int × Int)
deriving DecidableEq, Repr

/-- A snapshot of the file system: `Option.none` means the path does not exist
as a regular file. -/
def FS : Type := String → Option FileInfo

/-- The state of a `ScreenshotListItem` after `load()`: path, `os.path.getmtime`
timestamp, and the decoded image size. -/
structure ScreenshotListItem where
  file_path : String
  timestamp : Int
  image_size : Int × Int
deriving DecidableEq, Repr

/-- `ScreenshotListItem.load` for path `p`: `QImage(p)` never fails (a missing
or undecodable file yields the null image of size 0×0), but `os.path.getmtime`
raises `OSError` when the path does not exist — modelled as `Option.none`. -/
def loadItem (fs : FS) (p : String) : Option ScreenshotListItem :=
  match fs p with
  | Option.none => Option.none
  | some info => some ⟨p, info.mtime, info.decoded.getD (0, 0)⟩

/-- `ScreenshotListItem.__lt__`: `self.timestamp > other.timestamp` — the sort
comparator looks only at timestamps. -/
def itemLT (a b : ScreenshotListItem) : Prop :=
  b.timestamp < a.timestamp

/-- The non-strict companion of `itemLT`: `a` may be placed before `b` by a
stable sort with comparator `itemLT` exactly when `¬ itemLT b a`. -/
def itemLE (a b : ScreenshotListItem) : Prop :=
  b.timestamp ≤ a.timestamp

instance : DecidableRel itemLE :=
  fun a b => inferInstanceAs (Decidable (b.timestamp ≤ a.timestamp))

instance : IsTotal ScreenshotListItem itemLE :=
  ⟨fun a b => le_total b.timestamp a.timestamp⟩

instance : IsTrans ScreenshotListItem itemLE :=
  ⟨fun _ _ _ hab hbc => le_trans hbc hab⟩

/-- `QListWidget.sortItems` sorts with `__lt__` through a stable sort
(`std::stable_sort` in `QListModel::sort`); modelled as the stable insertion
sort ordering by `itemLE` (descending timestamps, ties keeping list order). -/
def sortItems (l : List ScreenshotListItem) : List ScreenshotListItem :=
  List.insertionSort itemLE l

/-- The state of the `ScreenshotList` widget: its rows and the reconciler's
`old_filelist` set (modelled as a list with membership semantics). -/
structure ScreenshotList where
  items : List ScreenshotListItem
  old_filelist : List String
deriving DecidableEq, Repr

/-- The paths currently present in the collection, in row order. -/
def itemPaths (s : ScreenshotList) : List String :=
  s.items.map fun it => it.file_path

/-- At most one entry per path. -/
def pathsNodup (s : ScreenshotList) : Prop :=
  (itemPaths s).Nodup

instance (s : ScreenshotList) : Decidable (pathsNodup s) :=
  inferInstanceAs (Decidable ((itemPaths s).Nodup))

/-- `ScreenshotList.remove_file`: scan rows for the first item with the given
path; if found, take it out and re-sort (then break); otherwise do nothing. -/
def remove_file (s : ScreenshotList) (p : String) : ScreenshotList :=
  if s.items.any (fun it => it.file_path == p) then
    { s with items := sortItems (s.items.eraseP (fun it => it.file_path == p)) }
  else s

/-- The successful tail of `add_file`: append the freshly loaded item after the
`remove_file` call and re-sort. -/
def add_file_item (s : ScreenshotList) (it : ScreenshotListItem) : ScreenshotList :=
  let s1 := remove_file s it.file_path
  { s1 with items := sortItems (s1.items ++ [it]) }

/-- `ScreenshotList.add_file`: `remove_file` first, then construct a
`ScreenshotListItem` (whose `load` raises when the path has vanished — the
`error` payload is the state at that moment), append it and sort. -/
def add_file (fs : FS) (s : ScreenshotList) (p : String) :
    Except ScreenshotList ScreenshotList :=
  match loadItem fs p with
  | Option.none => Except.error (remove_file s p)
  | some it => Except.ok (add_file_item s it)

/-- One externally triggered collection mutation: a watcher/reconciler call of
`add_file` (against some file-system snapshot) or of `remove_file`.  When
`add_file` raises, the collection is left in the error state. -/
inductive ListOp
  | addOp (fs : FS) (p : String)
  | removeOp (p : String)

/-- Apply one mutation to the collection state. -/
def applyOp (s : ScreenshotList) : ListOp → ScreenshotList
  | ListOp.addOp fs p =>
      match add_file fs s p with
      | Except.error e => e
      | Except.ok t => t
  | ListOp.removeOp p => remove_file s p

/-- Apply a sequence of mutations. -/
def applyOps (s : ScreenshotList) (ops : List ListOp) : ScreenshotList :=
  ops.foldl applyOp s

/-- Python's `str.strip()` on a line read from the list file. -/
def pyStrip (s : String) : String :=
  ⟨((s.toList.dropWhile Char.isWhitespace).reverse.dropWhile Char.isWhitespace).reverse⟩

/-- The `new_filelist` set built by `update_from_filelist`: each line stripped,
blank lines and lines whose path is not a file on disk discarded, collected
into a set (modelled by `dedup`).  A missing list file yields the empty set. -/
def newFilelist (fs : FS) (content : Option (List String)) : List String :=
  match content with
  | Option.none => []
  | some lines =>
      ((lines.map pyStrip).filter fun p => p.length != 0 && (fs p).isSome).dedup

/-- The `add_file` loop of `update_from_filelist` (and elsewhere): stop at the
first raised exception. -/
def addFiles (fs : FS) : List String → ScreenshotList → Except ScreenshotList ScreenshotList
  | [], s => Except.ok s
  | p :: ps, s =>
      match add_file fs s p with
      | Except.error e => Except.error e
      | Except.ok s2 => addFiles fs ps s2

/-- The `remove_file` loop of `update_from_filelist`. -/
def removeFiles : List String → ScreenshotList → ScreenshotList
  | [], s => s
  | p :: ps, s => removeFiles ps (remove_file s p)

/-- `ScreenshotList.update_from_filelist`: build `new_filelist`, diff it against
`old_filelist`, replace `old_filelist`, then `add_file` every added path and
`remove_file` every removed one.  `content` is the list file's lines, or
`Option.none` when the file does not exist. -/
def update_from_filelist (fs : FS) (content : Option (List String))
    (s : ScreenshotList) : Except ScreenshotList ScreenshotList :=
  let new_filelist := newFilelist fs content
  let added := new_filelist.filter fun p => !(decide (p ∈ s.old_filelist))
  let removed := s.old_filelist.filter fun p => !(decide (p ∈ new_filelist))
  let s0 : ScreenshotList := { items := s.items, old_filelist := new_filelist }
  Except.map (fun t => removeFiles removed t) (addFiles fs added s0)

/-- The directory-walk loop of `load_screenshots`: for each file found under
the source folder, skip it when its mtime is older than `now - 86400`,
otherwise `add_file` it (`os.path.getmtime` raises on a vanished path). -/
def walkFolder (fs : FS) (now : Int) : List String → ScreenshotList → Except ScreenshotList ScreenshotList
  | [], s => Except.ok s
  | p :: ps, s =>
      match fs p with
      | Option.none => Except.error s
      | some info =>
          if info.mtime < now - 86400 then walkFolder fs now ps s
          else
            match add_file fs s p with
            | Except.error e => Except.error e
            | Except.ok s2 => walkFolder fs now ps s2

/-- `ScreenshotList.load_screenshots`: `clear()` empties the rows (note it does
NOT reset `old_filelist`), then walks the source folder when configured
(`folder` is its file listing, `Option.none` when disabled or not a directory),
then runs `update_from_filelist` when the list file is configured and exists
(`filelist` is its lines, `Option.none` otherwise). -/
def load_screenshots (fs : FS) (now : Int) (folder : Option (List String))
    (filelist : Option (List String)) (s : ScreenshotList) :
    Except ScreenshotList ScreenshotList :=
  let s0 : ScreenshotList := { items := [], old_filelist := s.old_filelist }
  let step1 :=
    match folder with
    | Option.none => Except.ok s0
    | some files => walkFolder fs now files s0
  match step1 with
  | Except.error e => Except.error e
  | Except.ok s1 =>
      match filelist with
      | Option.none => Except.ok s1
      | some lines => update_from_filelist fs (some lines) s1

/-- Rows ordered by modification timestamp descending (non-strictly). -/
def sortedByTime (l : List ScreenshotListItem) : Prop :=
  l.Sorted itemLE

/-- Fixture: a file system holding a single file that is not a decodable
image. -/
def fs7 : FS := fun p =>
  if p = "/junk.bin" then some ⟨7, Option.none⟩ else Option.none

/-- Fixture: a file system holding one decodable screenshot. -/
def fs8 : FS := fun p =>
  if p = "/a.png" then some ⟨100, some (4, 3)⟩ else Option.none

/-- Fixture: the collection state right after a first `load_screenshots` run
against `fs8` with the list file containing `/a.png`. -/
def s8 : ScreenshotList :=
  { items := [⟨"/a.png", 100, (4, 3)⟩], old_filelist := ["/a.png"] }

/-- Fixture: a file system where `/b.png` exists and `/a.png` has been dropped
from the list file (but was previously known). -/
def fs6 : FS := fun p =>
  if p = "/b.png" then some ⟨2, some (1, 1)⟩ else Option.none

/-- Fixture: a collection currently tracking `/a.png` from the list file. -/
def s6 : ScreenshotList :=
  { items := [⟨"/a.png", 1, (1, 1)⟩], old_filelist := ["/a.png"] }

/-- Fixture: an editor mid-gesture shaping an ellipse anchored at (1, 2). -/
def edEllipse : ScreenshotEditor :=
  { changed := false
    items := [AnnotationItem.ellipseItem ⟨1, 2, 0, 0⟩]
    redo_items := []
    mouse_pressed := true
    previous_point := some ⟨1, 2⟩
    drawing_style := DrawingStyle.ellipse }

/-- Fixture: an editor mid-gesture drawing a pen stroke anchored at (0, 0). -/
def edPen : ScreenshotEditor :=
  { changed := false
    items := [AnnotationItem.group []]
    redo_items := []
    mouse_pressed := true
    previous_point := some ⟨0, 0⟩
    drawing_style := DrawingStyle.pen }

lemma undo_concat (s : ScreenshotEditor) (l : List AnnotationItem)
    (a : AnnotationItem) (h : s.items = l ++ [a]) :
    undo s = { s with items := l, redo_items := s.redo_items ++ [a] } := by
  unfold undo
  rw [h]
  simp

lemma redo_undo (s : ScreenshotEditor) (h : s.items ≠ []) :
    redo (undo s) = s := by
  obtain h' | ⟨l, a, hla⟩ := s.items.eq_nil_or_concat
  · exact absurd h' h
  · rw [List.concat_eq_append] at hla
    rw [undo_concat s l a hla]
    unfold redo
    simp only [List.getLast?_concat, List.dropLast_concat]
    rw [← hla]

lemma undo_items_length (s : ScreenshotEditor) (h : s.items ≠ []) :
    (undo s).items.length = s.items.length - 1 := by
  obtain h' | ⟨l, a, hla⟩ := s.items.eq_nil_or_concat
  · exact absurd h' h
  · rw [List.concat_eq_append] at hla
    rw [undo_concat s l a hla, hla]
    simp

lemma roundtrip_aux : ∀ (k : Nat) (s : ScreenshotEditor),
    k ≤ s.items.length → redo^[k] (undo^[k] s) = s := by
  intro k
  induction k with
  | zero => intro s _; rfl
  | succ k ih =>
    intro s h
    have hne : s.items ≠ [] := by
      intro he
      rw [he] at h
      simp at h
    rw [Function.iterate_succ_apply undo, Function.iterate_succ_apply' redo]
    have hlen : k ≤ (undo s).items.length := by
      rw [undo_items_length s hne]
      omega
    rw [ih (undo s) hlen, redo_undo s hne]

/-- C1 counterexample: `begin(ellipse, (10,10))` then `extend` to (5,5) stores
the rectangle (10, 10, −5, −5) — origin at the anchor with *negative* width and
height — not the normalized box (5, 5)–(10, 10). -/
theorem extend_stores_negative_rect :
    (mouseMoveEvent
        (mousePressEvent { initEditor with drawing_style := DrawingStyle.ellipse }
          ⟨10, 10⟩ true) ⟨5, 5⟩ true).items
      = [AnnotationItem.ellipseItem ⟨10, 10, -5, -5⟩]
    ∧ AnnotationItem.ellipseItem (⟨10, 10, -5, -5⟩ : Rect)
        ≠ AnnotationItem.ellipseItem ⟨5, 5, 5, 5⟩
    ∧ (-5 : Int) < 0 := by
  refine ⟨by decide, by decide, by decide⟩

/-- C1 (amended): during an ellipse/rect gesture, each `extend` with current
point `cur` redefines the shape's stored rectangle as origin `a` (the original
anchor, which stays unchanged for subsequent extends) and *signed* size
`cur − a`; the rectangle spans anchor→current-point but is not normalized, so
dragging up/left yields negative width/height. -/
theorem extend_rect_spans_anchor (s : ScreenshotEditor) (a cur : Point)
    (it : AnnotationItem) (r : Rect)
    (hp : s.mouse_pressed = true)
    (hprev : s.previous_point = some a)
    (hstyle : s.drawing_style = DrawingStyle.ellipse ∨ s.drawing_style = DrawingStyle.rect)
    (hlast : s.items.getLast? = some it)
    (hshape : shapeRect it = some r) :
    (∃ it2, (mouseMoveEvent s cur true).items.getLast? = some it2
        ∧ shapeRect it2 = some ⟨a.x, a.y, cur.x - a.x, cur.y - a.y⟩)
    ∧ (mouseMoveEvent s cur true).previous_point = some a := by
  have hne : ¬ s.drawing_style = DrawingStyle.pen := by
    rcases hstyle with h | h <;> rw [h] <;> intro hc <;> cases hc
  cases it with
  | group lines => simp [shapeRect] at hshape
  | ellipseItem r0 =>
      constructor
      · refine ⟨AnnotationItem.ellipseItem ⟨a.x, a.y, cur.x - a.x, cur.y - a.y⟩, ?_, rfl⟩
        simp [mouseMoveEvent, hp, hprev, hne, hstyle, hlast, setItemRect, setLast]
      · simp [mouseMoveEvent, hp, hprev, hne, hstyle, hlast, setItemRect, hprev]
  | rectItem r0 =>
      constructor
      · refine ⟨AnnotationItem.rectItem ⟨a.x, a.y, cur.x - a.x, cur.y - a.y⟩, ?_, rfl⟩
        simp [mouseMoveEvent, hp, hprev, hne, hstyle, hlast, setItemRect, setLast]
      · simp [mouseMoveEvent, hp, hprev, hne, hstyle, hlast, setItemRect, hprev]

/-- Witness for `extend_rect_spans_anchor` at the `edEllipse` fixture. -/
theorem extend_rect_spans_anchor_witness :
    (edEllipse.mouse_pressed = true
      ∧ edEllipse.previous_point = some ⟨1, 2⟩
      ∧ (edEllipse.drawing_style = DrawingStyle.ellipse
          ∨ edEllipse.drawing_style = DrawingStyle.rect)
      ∧ edEllipse.items.getLast? = some (AnnotationItem.ellipseItem ⟨1, 2, 0, 0⟩)
      ∧ shapeRect (AnnotationItem.ellipseItem ⟨1, 2, 0, 0⟩) = some ⟨1, 2, 0, 0⟩)
    ∧ ((∃ it2, (mouseMoveEvent edEllipse ⟨4, 7⟩ true).items.getLast? = some it2
          ∧ shapeRect it2 = some ⟨1, 2, 3, 5⟩)
        ∧ (mouseMoveEvent edEllipse ⟨4, 7⟩ true).previous_point = some ⟨1, 2⟩) :=
  ⟨⟨rfl, rfl, Or.inl rfl, rfl, rfl⟩,
    extend_rect_spans_anchor edEllipse ⟨1, 2⟩ ⟨4, 7⟩
      (AnnotationItem.ellipseItem ⟨1, 2, 0, 0⟩) ⟨1, 2, 0, 0⟩
      rfl rfl (Or.inl rfl) rfl rfl⟩

/-- C4: for any editor state, undoing all `N` stacked operations and then
redoing `N` times restores the state exactly (same operations in the same
order, hence the same rasterized output). -/
theorem undo_redo_roundtrip (s : ScreenshotEditor) :
    redo^[s.items.length] (undo^[s.items.length] s) = s :=
  roundtrip_aux s.items.length s le_rfl

/-- C5: issuing a new operation clears `redo_items`, so the retained undone
operations are discarded and a subsequent `redo` is a no-op. -/
theorem new_edit_invalidates_redo (s : ScreenshotEditor) (it : AnnotationItem) :
    (add_item s it).redo_items = [] ∧ redo (add_item s it) = add_item s it :=
  ⟨rfl, rfl⟩

/-- C9 counterexample: starting a new operation (`mousePressEvent` →
`add_item`) does not set `changed`, and neither does `undo` — refuting the
claim that every mutation of the annotation stack sets the dirty flag. -/
theorem begin_leaves_changed_unset :
    (mousePressEvent initEditor ⟨0, 0⟩ true).changed = false
    ∧ (undo (mousePressEvent initEditor ⟨0, 0⟩ true)).changed = false := by
  refine ⟨by decide, by decide⟩

/-- C9 (amended): only extending an operation (`mouseMoveEvent` while drawing,
in *either* the pen branch or the ellipse/rectangle branch) sets the `changed`
flag and `save` clears it; `add_item` (begin), `undo` and `redo` leave the
flag unchanged. -/
theorem changed_flag_discipline (s : ScreenshotEditor) (it : AnnotationItem)
    (pos : Point) :
    (∀ (a : Point) (ls : List (Point × Point)),
        s.mouse_pressed = true → s.previous_point = some a →
        s.drawing_style = DrawingStyle.pen →
        s.items.getLast? = some (AnnotationItem.group ls) →
        (mouseMoveEvent s pos true).changed = true)
    ∧ (∀ (a : Point) (it0 : AnnotationItem) (r : Rect),
        s.mouse_pressed = true → s.previous_point = some a →
        (s.drawing_style = DrawingStyle.ellipse ∨ s.drawing_style = DrawingStyle.rect) →
        s.items.getLast? = some it0 → shapeRect it0 = some r →
        (mouseMoveEvent s pos true).changed = true)
    ∧ (save s).changed = false
    ∧ (add_item s it).changed = s.changed
    ∧ (undo s).changed = s.changed
    ∧ (redo s).changed = s.changed := by
  refine ⟨?_, ?_, rfl, rfl, ?_, ?_⟩
  · intro a ls hp hprev hst hlast
    simp [mouseMoveEvent, hp, hprev, hst, hlast, setLast]
  · intro a it0 r hp hprev hstyle hlast hshape
    have hne : ¬ s.drawing_style = DrawingStyle.pen := by
      rcases hstyle with h | h <;> rw [h] <;> intro hc <;> cases hc
    cases it0 with
    | group lines => simp [shapeRect] at hshape
    | ellipseItem r0 =>
        simp [mouseMoveEvent, hp, hprev, hne, hstyle, hlast, setItemRect, setLast]
    | rectItem r0 =>
        simp [mouseMoveEvent, hp, hprev, hne, hstyle, hlast, setItemRect, setLast]
  · unfold undo
    cases s.items.getLast? <;> rfl
  · unfold redo
    cases s.redo_items.getLast? <;> rfl

/-- Witness for `changed_flag_discipline`, exercising the pen extend (at the
`edPen` fixture) and the ellipse/rect extend (at the `edEllipse` fixture). -/
theorem changed_flag_discipline_witness :
    (mouseMoveEvent edPen ⟨3, 3⟩ true).changed = true
    ∧ (mouseMoveEvent edEllipse ⟨4, 7⟩ true).changed = true
    ∧ (save edPen).changed = false
    ∧ (add_item edPen (AnnotationItem.group [])).changed = edPen.changed
    ∧ (undo edPen).changed = edPen.changed
    ∧ (redo edPen).changed = edPen.changed := by
  obtain ⟨h1, -, h3, h4, h5, h6⟩ :=
    changed_flag_discipline edPen (AnnotationItem.group []) ⟨3, 3⟩
  obtain ⟨-, k2, -, -, -, -⟩ :=
    changed_flag_discipline edEllipse (AnnotationItem.group []) ⟨4, 7⟩
  exact ⟨h1 ⟨0, 0⟩ [] rfl rfl rfl rfl,
    k2 ⟨1, 2⟩ (AnnotationItem.ellipseItem ⟨1, 2, 0, 0⟩) ⟨1, 2, 0, 0⟩
      rfl rfl (Or.inl rfl) rfl rfl,
    h3, h4, h5, h6⟩

/-- C10: `undo` and `redo` leave the `changed` flag — and every other editor
field except `items` and `redo_items` — exactly as it was. -/
theorem undo_redo_preserve_changed (s : ScreenshotEditor) :
    (undo s).changed = s.changed ∧ (redo s).changed = s.changed
    ∧ (undo s).mouse_pressed = s.mouse_pressed
    ∧ (redo s).mouse_pressed = s.mouse_pressed
    ∧ (undo s).previous_point = s.previous_point
    ∧ (redo s).previous_point = s.previous_point
    ∧ (undo s).drawing_style = s.drawing_style
    ∧ (redo s).drawing_style = s.drawing_style := by
  unfold undo redo
  cases s.items.getLast? <;> cases s.redo_items.getLast? <;>
    exact ⟨rfl, rfl, rfl, rfl, rfl, rfl, rfl, rfl⟩

lemma mem_map_sortItems (l : List ScreenshotListItem) (q : String) :
    q ∈ (sortItems l).map (fun it => it.file_path)
      ↔ q ∈ l.map (fun it => it.file_path) :=
  ((List.perm_insertionSort itemLE l).map _).mem_iff

lemma nodup_map_sortItems (l : List ScreenshotListItem)
    (h : (l.map (fun it => it.file_path)).Nodup) :
    ((sortItems l).map (fun it => it.file_path)).Nodup :=
  (((List.perm_insertionSort itemLE l).map _).symm).nodup h

lemma not_mem_map_eraseP (p : String) (l : List ScreenshotListItem)
    (h : (l.map (fun it => it.file_path)).Nodup) :
    p ∉ (l.eraseP (fun it => it.file_path == p)).map (fun it => it.file_path) := by
  induction l with
  | nil => simp
  | cons a l ih =>
    simp only [List.map_cons, List.nodup_cons] at h
    by_cases ha : a.file_path = p
    · simp only [List.eraseP_cons, ha, beq_self_eq_true, cond_true]
      rw [← ha]
      exact h.1
    · have hb : (a.file_path == p) = false := beq_eq_false_iff_ne.mpr ha
      simp only [List.eraseP_cons, hb, cond_false, List.map_cons, List.mem_cons]
      rintro (hc | hc)
      · exact ha hc.symm
      · exact ih h.2 hc

lemma mem_map_eraseP_of_ne (p q : String) (hne : q ≠ p)
    (l : List ScreenshotListItem) :
    q ∈ (l.eraseP (fun it => it.file_path == p)).map (fun it => it.file_path)
      ↔ q ∈ l.map (fun it => it.file_path) := by
  induction l with
  | nil => simp
  | cons a l ih =>
    by_cases ha : a.file_path = p
    · simp only [List.eraseP_cons, ha, beq_self_eq_true, cond_true, List.map_cons,
        List.mem_cons]
      constructor
      · exact Or.inr
      · rintro (hc | hc)
        · exact absurd hc hne
        · exact hc
    · have hb : (a.file_path == p) = false := beq_eq_false_iff_ne.mpr ha
      simp only [List.eraseP_cons, hb, cond_false, List.map_cons, List.mem_cons]
      rw [ih]

lemma mem_map_eraseP_sub (p q : String) (l : List ScreenshotListItem)
    (h : q ∈ (l.eraseP (fun it => it.file_path == p)).map (fun it => it.file_path)) :
    q ∈ l.map (fun it => it.file_path) :=
  ((List.eraseP_sublist l).map _).subset h

lemma remove_file_old (s : ScreenshotList) (p : String) :
    (remove_file s p).old_filelist = s.old_filelist := by
  unfold remove_file
  split <;> rfl

lemma itemPaths_remove_sub (s : ScreenshotList) (p q : String)
    (h : q ∈ itemPaths (remove_file s p)) : q ∈ itemPaths s := by
  unfold remove_file itemPaths at *
  by_cases hc : s.items.any (fun it => it.file_path == p)
  · rw [if_pos hc] at h
    rw [mem_map_sortItems] at h
    exact mem_map_eraseP_sub p q s.items h
  · rw [if_neg hc] at h
    exact h

lemma not_mem_itemPaths_remove (s : ScreenshotList) (p : String)
    (h : pathsNodup s) : p ∉ itemPaths (remove_file s p) := by
  unfold remove_file itemPaths pathsNodup at *
  by_cases hc : s.items.any (fun it => it.file_path == p)
  · rw [if_pos hc, mem_map_sortItems]
    exact not_mem_map_eraseP p s.items h
  · rw [if_neg hc]
    intro hmem
    obtain ⟨it, hit, hfp⟩ := List.mem_map.mp hmem
    exact hc (List.any_eq_true.mpr ⟨it, hit, beq_iff_eq.mpr hfp⟩)

lemma mem_itemPaths_remove_of_ne (s : ScreenshotList) (p q : String)
    (hne : q ≠ p) :
    q ∈ itemPaths (remove_file s p) ↔ q ∈ itemPaths s := by
  unfold remove_file itemPaths
  by_cases hc : s.items.any (fun it => it.file_path == p)
  · rw [if_pos hc, mem_map_sortItems]
    exact mem_map_eraseP_of_ne p q hne s.items
  · rw [if_neg hc]

lemma pathsNodup_remove (s : ScreenshotList) (p : String)
    (h : pathsNodup s) : pathsNodup (remove_file s p) := by
  unfold remove_file pathsNodup itemPaths at *
  by_cases hc : s.items.any (fun it => it.file_path == p)
  · rw [if_pos hc]
    exact nodup_map_sortItems _ (((List.eraseP_sublist _).map _).nodup h)
  · rw [if_neg hc]
    exact h

lemma add_file_item_old (s : ScreenshotList) (it : ScreenshotListItem) :
    (add_file_item s it).old_filelist = s.old_filelist := by
  unfold add_file_item
  exact remove_file_old s it.file_path

lemma mem_itemPaths_add (s : ScreenshotList) (it : ScreenshotListItem)
    (q : String) :
    q ∈ itemPaths (add_file_item s it) ↔ q = it.file_path ∨ q ∈ itemPaths s := by
  unfold add_file_item
  show q ∈ itemPaths { remove_file s it.file_path with
      items := sortItems ((remove_file s it.file_path).items ++ [it]) }
    ↔ q = it.file_path ∨ q ∈ itemPaths s
  unfold itemPaths
  rw [mem_map_sortItems, List.map_append, List.mem_append]
  constructor
  · rintro (h | h)
    · exact Or.inr (itemPaths_remove_sub s it.file_path q h)
    · simp only [List.map_cons, List.map_nil, List.mem_singleton] at h
      exact Or.inl h
  · rintro (h | h)
    · right
      simp [h]
    · by_cases hq : q = it.file_path
      · right
        simp [hq]
      · left
        exact (mem_itemPaths_remove_of_ne s it.file_path q hq).mpr h

lemma pathsNodup_add (s : ScreenshotList) (it : ScreenshotListItem)
    (h : pathsNodup s) : pathsNodup (add_file_item s it) := by
  unfold add_file_item pathsNodup itemPaths
  apply nodup_map_sortItems
  rw [List.map_append]
  apply List.Nodup.append
  · exact pathsNodup_remove s it.file_path h
  · simp
  · intro x hx hx2
    simp only [List.map_cons, List.map_nil, List.mem_singleton] at hx2
    subst hx2
    exact not_mem_itemPaths_remove s it.file_path h hx

/-- C2 counterexample: two entries with equal timestamps inserted as `b` then
`a` stay in insertion order `["b", "a"]` — the comparator looks only at
timestamps, so ties are NOT broken by path ascending (which would demand
`["a", "b"]`), and the resulting order is not strict. -/
theorem tie_not_broken_by_path :
    itemPaths (add_file_item
        (add_file_item { items := [], old_filelist := [] } ⟨"b", 5, (1, 1)⟩)
        ⟨"a", 5, (1, 1)⟩)
      = ["b", "a"]
    ∧ (["b", "a"] : List String) ≠ ["a", "b"] := by
  refine ⟨by decide, by decide⟩

/-- C2 (amended): after an `add_file` or `remove_file` mutation of a sorted
collection, the entries are ordered by modification timestamp descending
(non-strictly); ties retain their stable-sort (insertion) order rather than
being broken by path. -/
theorem sort_invariant_descending (s : ScreenshotList)
    (it : ScreenshotListItem) (p : String) (h : sortedByTime s.items) :
    sortedByTime (add_file_item s it).items
    ∧ sortedByTime (remove_file s p).items := by
  constructor
  · exact List.sorted_insertionSort itemLE _
  · unfold remove_file
    split
    · exact List.sorted_insertionSort itemLE _
    · exact h

/-- Witness for `sort_invariant_descending` on the empty collection. -/
theorem sort_invariant_descending_witness :
    sortedByTime ({ items := [], old_filelist := [] } : ScreenshotList).items
    ∧ (sortedByTime (add_file_item { items := [], old_filelist := [] }
          ⟨"a", 5, (1, 1)⟩).items
        ∧ sortedByTime (remove_file { items := [], old_filelist := [] } "b").items) :=
  ⟨List.sorted_nil,
    sort_invariant_descending { items := [], old_filelist := [] }
      ⟨"a", 5, (1, 1)⟩ "b" List.sorted_nil⟩

lemma pathsNodup_applyOp (s : ScreenshotList) (op : ListOp)
    (h : pathsNodup s) : pathsNodup (applyOp s op) := by
  cases op with
  | addOp fs p =>
      cases hl : loadItem fs p with
      | none =>
          have he : applyOp s (ListOp.addOp fs p) = remove_file s p := by
            simp [applyOp, add_file, hl]
          rw [he]
          exact pathsNodup_remove s p h
      | some it =>
          have he : applyOp s (ListOp.addOp fs p) = add_file_item s it := by
            simp [applyOp, add_file, hl]
          rw [he]
          exact pathsNodup_add s it h
  | removeOp p => exact pathsNodup_remove s p h

lemma pathsNodup_applyOps (ops : List ListOp) :
    ∀ (s : ScreenshotList), pathsNodup s → pathsNodup (applyOps s ops) := by
  induction ops with
  | nil => exact fun s h => h
  | cons op ops ih => exact fun s h => ih (applyOp s op) (pathsNodup_applyOp s op h)

/-- C3: starting from the empty collection, any sequence of `add_file` /
`remove_file` operations (including `add_file` calls that raise mid-way)
leaves at most one entry per path — the paths of the rows are always
duplicate-free. -/
theorem dedup_invariant (ops : List ListOp) :
    pathsNodup (applyOps { items := [], old_filelist := [] } ops) :=
  pathsNodup_applyOps ops { items := [], old_filelist := [] } List.nodup_nil

lemma isSome_of_mem_newFilelist (fs : FS) (content : Option (List String))
    (p : String) (h : p ∈ newFilelist fs content) : (fs p).isSome = true := by
  unfold newFilelist at h
  cases content with
  | none => simp at h
  | some lines =>
      rw [List.mem_dedup] at h
      have hf := (List.mem_filter.mp h).2
      simp only [Bool.and_eq_true] at hf
      exact hf.2

lemma addFiles_ok (fs : FS) (ps : List String) :
    ∀ (s : ScreenshotList), (∀ p ∈ ps, (fs p).isSome = true) →
      ∃ t, addFiles fs ps s = Except.ok t
        ∧ t.old_filelist = s.old_filelist
        ∧ (∀ q, q ∈ itemPaths t ↔ q ∈ ps ∨ q ∈ itemPaths s)
        ∧ (pathsNodup s → pathsNodup t) := by
  induction ps with
  | nil =>
      intro s _
      exact ⟨s, rfl, rfl, fun q => by simp, fun h => h⟩
  | cons p ps ih =>
      intro s hall
      have hp : (fs p).isSome = true := hall p (List.mem_cons_self p ps)
      obtain ⟨info, hinfo⟩ := Option.isSome_iff_exists.mp hp
      have hload : loadItem fs p = some ⟨p, info.mtime, info.decoded.getD (0, 0)⟩ := by
        unfold loadItem
        rw [hinfo]
      have hstep : addFiles fs (p :: ps) s
          = addFiles fs ps (add_file_item s ⟨p, info.mtime, info.decoded.getD (0, 0)⟩) := by
        show (match add_file fs s p with
              | Except.error e => Except.error e
              | Except.ok s2 => addFiles fs ps s2)
            = addFiles fs ps (add_file_item s ⟨p, info.mtime, info.decoded.getD (0, 0)⟩)
        unfold add_file
        rw [hload]
      obtain ⟨t, ht, hold, hmem, hnd⟩ :=
        ih (add_file_item s ⟨p, info.mtime, info.decoded.getD (0, 0)⟩)
          (fun q hq => hall q (List.mem_cons_of_mem p hq))
      refine ⟨t, hstep ▸ ht, ?_, ?_, ?_⟩
      · rw [hold, add_file_item_old]
      · intro q
        rw [hmem q, mem_itemPaths_add]
        simp only [List.mem_cons]
        constructor
        · rintro (h | h | h)
          · exact Or.inl (Or.inr h)
          · exact Or.inl (Or.inl h)
          · exact Or.inr h
        · rintro ((h | h) | h)
          · exact Or.inr (Or.inl h)
          · exact Or.inl h
          · exact Or.inr (Or.inr h)
      · intro hs
        exact hnd (pathsNodup_add s _ hs)

lemma removeFiles_spec (ps : List String) :
    ∀ (s : ScreenshotList), pathsNodup s →
      (removeFiles ps s).old_filelist = s.old_filelist
      ∧ pathsNodup (removeFiles ps s)
      ∧ (∀ q, q ∈ itemPaths (removeFiles ps s) ↔ q ∈ itemPaths s ∧ q ∉ ps) := by
  induction ps with
  | nil =>
      intro s h
      exact ⟨rfl, h, fun q => by simp [removeFiles]⟩
  | cons p ps ih =>
      intro s h
      obtain ⟨h1, h2, h3⟩ := ih (remove_file s p) (pathsNodup_remove s p h)
      refine ⟨h1.trans (remove_file_old s p), h2, ?_⟩
      intro q
      have hstep : removeFiles (p :: ps) s = removeFiles ps (remove_file s p) := rfl
      rw [hstep, h3 q]
      simp only [List.mem_cons]
      constructor
      · rintro ⟨hq, hnp⟩
        by_cases hqp : q = p
        · subst hqp
          exact absurd hq (not_mem_itemPaths_remove s q h)
        · exact ⟨(mem_itemPaths_remove_of_ne s p q hqp).mp hq, by
            rintro (hc | hc)
            · exact hqp hc
            · exact hnp hc⟩
      · rintro ⟨hq, hnp⟩
        have hqp : q ≠ p := fun hc => hnp (Or.inl hc)
        exact ⟨(mem_itemPaths_remove_of_ne s p q hqp).mpr hq,
          fun hc => hnp (Or.inr hc)⟩

/-- C6: one run of `update_from_filelist` against previously known set `A`
(`old_filelist`) and list-file content denoting set `B` succeeds, replaces
`old_filelist` with exactly `B ∩ files-existing-on-disk` (that is,
`newFilelist`), puts every such path into the collection, removes every
previously known path that dropped out, and keeps paths duplicate-free; a
missing list file (`content = none`) yields the empty known set. -/
theorem reconcile_correct (fs : FS) (content : Option (List String))
    (s : ScreenshotList) (hd : pathsNodup s)
    (hold : ∀ p, p ∈ s.old_filelist → p ∈ itemPaths s) :
    ∃ t, update_from_filelist fs content s = Except.ok t
      ∧ t.old_filelist = newFilelist fs content
      ∧ pathsNodup t
      ∧ (∀ p, p ∈ newFilelist fs content → p ∈ itemPaths t)
      ∧ (∀ p, p ∈ s.old_filelist → p ∉ newFilelist fs content → p ∉ itemPaths t)
      ∧ (content = Option.none → t.old_filelist = []) := by
  obtain ⟨t1, ht1, ht1old, ht1mem, ht1nd⟩ :=
    addFiles_ok fs
      ((newFilelist fs content).filter fun p => !(decide (p ∈ s.old_filelist)))
      { items := s.items, old_filelist := newFilelist fs content }
      (fun p hp => isSome_of_mem_newFilelist fs content p (List.mem_filter.mp hp).1)
  have ht1nd' : pathsNodup t1 := ht1nd hd
  obtain ⟨h1old, h1nd, h1mem⟩ :=
    removeFiles_spec (s.old_filelist.filter fun p => !(decide (p ∈ newFilelist fs content)))
      t1 ht1nd'
  refine ⟨removeFiles
      (s.old_filelist.filter fun p => !(decide (p ∈ newFilelist fs content))) t1,
    ?_, ?_, h1nd, ?_, ?_, ?_⟩
  · show Except.map (fun t => removeFiles
        (s.old_filelist.filter fun p => !(decide (p ∈ newFilelist fs content))) t)
        (addFiles fs
          ((newFilelist fs content).filter fun p => !(decide (p ∈ s.old_filelist)))
          { items := s.items, old_filelist := newFilelist fs content })
      = _
    rw [ht1]
    rfl
  · rw [h1old, ht1old]
  · intro p hp
    rw [h1mem p]
    constructor
    · rw [ht1mem p]
      by_cases hmemold : p ∈ s.old_filelist
      · exact Or.inr (hold p hmemold)
      · exact Or.inl (List.mem_filter.mpr ⟨hp, by simp [hmemold]⟩)
    · intro hc
      have := (List.mem_filter.mp hc).2
      simp only [Bool.not_eq_true', decide_eq_false_iff_not] at this
      exact this hp
  · intro p hpold hpnew
    rw [h1mem p]
    rintro ⟨_, hc⟩
    exact hc (List.mem_filter.mpr ⟨hpold, by simp [hpnew]⟩)
  · intro hc
    rw [h1old, ht1old, hc]
    rfl

/-- Witness for `reconcile_correct`: the collection tracks `/a.png`; the list
file now names only `/b.png`, which exists on disk. -/
theorem reconcile_correct_witness :
    (pathsNodup s6 ∧ (∀ p, p ∈ s6.old_filelist → p ∈ itemPaths s6))
    ∧ (∃ t, update_from_filelist fs6 (some ["/b.png"]) s6 = Except.ok t
        ∧ t.old_filelist = newFilelist fs6 (some ["/b.png"])
        ∧ pathsNodup t
        ∧ (∀ p, p ∈ newFilelist fs6 (some ["/b.png"]) → p ∈ itemPaths t)
        ∧ (∀ p, p ∈ s6.old_filelist → p ∉ newFilelist fs6 (some ["/b.png"]) →
            p ∉ itemPaths t)
        ∧ (some ["/b.png"] = Option.none → t.old_filelist = [])) :=
  ⟨⟨by decide, by decide⟩,
    reconcile_correct fs6 (some ["/b.png"]) s6 (by decide) (by decide)⟩

/-- C7 counterexample: `add_file` on a vanished path propagates the
`os.path.getmtime` exception (there is no try/except on this path), and
`add_file` on an existing but undecodable file *inserts* an entry (with the
null-image size 0×0) instead of leaving none. -/
theorem add_file_failure_cx :
    add_file fs7 { items := [], old_filelist := [] } "/gone.png"
      = Except.error { items := [], old_filelist := [] }
    ∧ add_file fs7 { items := [], old_filelist := [] } "/junk.bin"
      = Except.ok { items := [⟨"/junk.bin", 7, (0, 0)⟩], old_filelist := [] } :=
  ⟨rfl, rfl⟩

/-- C7 (amended): when the path does not exist on disk, `add_file` first
removes any existing entry and then raises (the error state holds no entry for
the path); when the path exists but is not a decodable image, `add_file`
succeeds and inserts an entry whose dimensions are the null-image size 0×0. -/
theorem add_file_failure_behaviour (fs : FS) (s : ScreenshotList) (p : String)
    (hd : pathsNodup s) :
    (fs p = Option.none →
      ∃ e, add_file fs s p = Except.error e ∧ p ∉ itemPaths e)
    ∧ (∀ m, fs p = some ⟨m, Option.none⟩ →
      ∃ t, add_file fs s p = Except.ok t
        ∧ (⟨p, m, (0, 0)⟩ : ScreenshotListItem) ∈ t.items) := by
  constructor
  · intro hnone
    refine ⟨remove_file s p, ?_, not_mem_itemPaths_remove s p hd⟩
    unfold add_file loadItem
    rw [hnone]
  · intro m hm
    refine ⟨add_file_item s ⟨p, m, (0, 0)⟩, ?_, ?_⟩
    · unfold add_file loadItem
      rw [hm]
      rfl
    · show (⟨p, m, (0, 0)⟩ : ScreenshotListItem)
        ∈ sortItems ((remove_file s p).items ++ [⟨p, m, (0, 0)⟩])
      unfold sortItems
      rw [List.mem_insertionSort]
      simp

/-- Witness for `add_file_failure_behaviour` at `fs7` and the empty
collection. -/
theorem add_file_failure_behaviour_witness :
    pathsNodup { items := [], old_filelist := [] }
    ∧ ((fs7 "/junk.bin" = Option.none →
        ∃ e, add_file fs7 { items := [], old_filelist := [] } "/junk.bin"
            = Except.error e ∧ "/junk.bin" ∉ itemPaths e)
      ∧ (∀ m, fs7 "/junk.bin" = some ⟨m, Option.none⟩ →
        ∃ t, add_file fs7 { items := [], old_filelist := [] } "/junk.bin"
            = Except.ok t
          ∧ (⟨"/junk.bin", m, (0, 0)⟩ : ScreenshotListItem) ∈ t.items)) :=
  ⟨by decide,
    add_file_failure_behaviour fs7 { items := [], old_filelist := [] }
      "/junk.bin" (by decide)⟩

/-- C8: a repeated `load_screenshots` (after reconfiguration) clears the rows
but not `old_filelist`, so a list-file path that is still listed and still on
disk is NOT re-added (`added = new − old = ∅`): the run ends with an empty
collection where the claim demands `/a.png`.  A first run from a pristine
state does include it, confirming only the repeat invocation diverges. -/
theorem load_screenshots_repeat_drops_list_entries :
    load_screenshots fs8 100 Option.none (some ["/a.png"]) s8
      = Except.ok { items := [], old_filelist := ["/a.png"] }
    ∧ load_screenshots fs8 100 Option.none (some ["/a.png"])
        { items := [], old_filelist := [] }
      = Except.ok { items := [⟨"/a.png", 100, (4, 3)⟩], old_filelist := ["/a.png"] } :=
  ⟨rfl, rfl⟩

end ScreenshotManager
